import Mathlib

/-!
Verification of the Video-summary pipeline (narahari-ai/Video-summary).

Shallow embedding of the parts of the repository the claims speak about:

* `chunk_text`        — `TransformerSummarizer._chunk_text` (src/app/summarizer.py)
* `get_unique_filename` — src/app/utils.py
* `validate_file_output` — src/scripts/run_all.py
* `whisperTranscribe` / `voskTranscribe` — src/app/transcriber.py
* `process_video`     — the orchestrator of src/scripts/run_all.py

Python strings are modelled as Lean `String`s; the handful of Python string
operations the code uses (`str.strip`, `str.split`, `str.replace`,
`os.path.basename`/`dirname`/`join`/`splitext`, the `^(.+)_(\d+)$` regex)
are implemented below on `List Char` and wrapped.  The filesystem is
modelled explicitly: a set of existing paths (`List String`) where only
existence matters, or an association list of contents where writes matter.
-/

namespace VideoSummary

/-- Python `str.strip()`: drop leading and trailing whitespace. -/
def pyStrip (l : List Char) : List Char :=
  ((l.dropWhile Char.isWhitespace).reverse.dropWhile Char.isWhitespace).reverse

/-- Python `str.split('.')`: split at every `'.'`, keeping empty pieces. -/
def pySplitDot : List Char → List Char → List (List Char)
  | [], acc => [acc.reverse]
  | c :: cs, acc =>
    if c = '.' then acc.reverse :: pySplitDot cs [] else pySplitDot cs (c :: acc)

/-- Python `text.replace('\n', '. ')` as used by `_chunk_text`. -/
def replaceNewline : List Char → List Char
  | [] => []
  | c :: cs => if c = '\n' then '.' :: ' ' :: replaceNewline cs else c :: replaceNewline cs

/-- Python `str.split()` (no argument): split on whitespace runs, no empty pieces. -/
def pySplitWsGo : List Char → List Char → List (List Char)
  | [], acc => if acc.isEmpty then [] else [acc.reverse]
  | c :: cs, acc =>
    if c.isWhitespace then
      if acc.isEmpty then pySplitWsGo cs [] else acc.reverse :: pySplitWsGo cs []
    else pySplitWsGo cs (c :: acc)

/-- Python `len(s.split())`: the number of whitespace-separated words.
Used as a concrete token counter (the spec's scenarios fix word count as
the `token_counter`), and by the transcriber's word-count validation. -/
def pyWordCount (s : String) : Nat := (pySplitWsGo s.data []).length

/-- Python `" ".join(parts)`. -/
def joinSpace : List String → String
  | [] => ""
  | [s] => s
  | s :: rest => s ++ " " ++ joinSpace rest

/-! ## Text Chunker — `TransformerSummarizer._chunk_text` (src/app/summarizer.py)

```python
sentences = [s.strip() for s in text.replace('\n', '. ').split('.') if s.strip()]
chunks = []
current_chunk = []
current_length = 0
for sentence in sentences:
    sentence_tokens = len(self.tokenizer.encode(sentence))
    if current_length + sentence_tokens > max_chunk_size:
        chunks.append(" ".join(current_chunk))
        current_chunk = [sentence]
        current_length = sentence_tokens
    else:
        current_chunk.append(sentence)
        current_length += sentence_tokens
if current_chunk:
    chunks.append(" ".join(current_chunk))
return chunks
```

The tokenizer is model specific; it is abstracted as `tok : String → Nat`.
`chunkGo` keeps each chunk as its list of source sentences; the Python code
joins a chunk with `" "` at the moment it is appended, which is the same as
joining every collected chunk at the end (`chunk_text` below). -/

/-- The sentence-like units `_chunk_text` splits its input into. -/
def sentenceUnits (text : String) : List String :=
  ((pySplitDot (replaceNewline text.data) []).map (fun l => (⟨pyStrip l⟩ : String))).filter
    (fun s => s ≠ "")

/-- The accumulation loop of `_chunk_text`, chunks kept as sentence lists.
Arguments mirror the Python locals: remaining sentences, `chunks`,
`current_chunk`, `current_length`. -/
def chunkGo (tok : String → Nat) (maxChunkSize : Nat) :
    List String → List (List String) → List String → Nat → List (List String)
  | [], chunks, currentChunk, _ =>
    if currentChunk.isEmpty then chunks else chunks ++ [currentChunk]
  | sentence :: rest, chunks, currentChunk, currentLength =>
    if currentLength + tok sentence > maxChunkSize then
      chunkGo tok maxChunkSize rest (chunks ++ [currentChunk]) [sentence] (tok sentence)
    else
      chunkGo tok maxChunkSize rest chunks (currentChunk ++ [sentence]) (currentLength + tok sentence)

/-- The chunks of `_chunk_text` as sentence lists. -/
def chunkUnits (tok : String → Nat) (text : String) (maxChunkSize : Nat) :
    List (List String) :=
  chunkGo tok maxChunkSize (sentenceUnits text) [] [] 0

/-- `TransformerSummarizer._chunk_text`: the returned chunk strings. -/
def chunk_text (tok : String → Nat) (text : String) (maxChunkSize : Nat) : List String :=
  (chunkUnits tok text maxChunkSize).map joinSpace

/-! ## POSIX path helpers (`os.path.basename` / `dirname` / `join` / `splitext`) -/

/-- `os.path.basename`: everything after the last `'/'`. -/
def pyBasename (p : List Char) : List Char :=
  (p.reverse.takeWhile (fun c => c ≠ '/')).reverse

/-- `os.path.dirname`: everything up to the last `'/'`; a head that is not all
slashes has its trailing slashes stripped. -/
def pyDirname (p : List Char) : List Char :=
  let head := (p.reverse.dropWhile (fun c => c ≠ '/')).reverse
  if head.isEmpty || head.all (fun c => c = '/') then head
  else (head.reverse.dropWhile (fun c => c = '/')).reverse

/-- `os.path.join(a, b)` for two components. -/
def pyJoin (a b : List Char) : List Char :=
  if b.head? = some '/' then b
  else if a.isEmpty || a.getLast? = some '/' then a ++ b
  else a ++ '/' :: b

/-- `os.path.splitext`: split off the extension at the last `'.'` of the
final component, unless the dots are all leading dots of that component. -/
def pySplitExt (p : List Char) : List Char × List Char :=
  match (pyBasename p).reverse.dropWhile (fun c => c ≠ '.') with
  | [] => (p, [])
  | _ :: stemRev =>
    if stemRev.any (fun c => c ≠ '.') then
      (p.take (p.length - (pyBasename p).length) ++ stemRev.reverse,
        '.' :: ((pyBasename p).reverse.takeWhile (fun c => c ≠ '.')).reverse)
    else (p, [])

/-! ## Unique Path Allocator — `get_unique_filename` (src/app/utils.py)

```python
def get_unique_filename(base_path):
    if not os.path.exists(base_path):
        return base_path
    directory = os.path.dirname(base_path)
    filename = os.path.basename(base_path)
    name, ext = os.path.splitext(filename)
    counter = 1
    while os.path.exists(base_path):
        match = re.match(r"^(.+)_(\d+)$", name)
        if match:
            name = match.group(1)
        new_name = f"{name}_{counter}{ext}"
        base_path = os.path.join(directory, new_name)
        counter += 1
    return base_path
```

The filesystem is a list `E` of existing paths.  The `while` loop is
translated as the iteration of `allocStep` (one iteration of the loop body)
stopped at the first state whose `base_path` does not exist; that such a
state exists is proved below (`alloc_exists`), so the function is total. -/

/-- `re.match(r"^(.+)_(\d+)$", name)` followed by `name = match.group(1)`:
if `name` ends in `_<digits>` with a nonempty remainder before the
underscore, drop that suffix; otherwise leave `name` unchanged. -/
def stripCounter (name : List Char) : List Char :=
  match name.reverse.dropWhile Char.isDigit with
  | '_' :: preRev =>
    if (name.reverse.takeWhile Char.isDigit).isEmpty || preRev.isEmpty then name
    else preRev.reverse
  | _ => name

/-- One iteration of the `while` loop of `get_unique_filename`:
strip the counter suffix from `name`, build `f"{name}_{counter}{ext}"`,
join it to the directory, increment the counter. -/
structure AllocState where
  name : List Char
  basePath : String
  counter : Nat

def allocStep (dir ext : List Char) (st : AllocState) : AllocState :=
  let name := stripCounter st.name
  let newName := name ++ ('_' :: ((Nat.repr st.counter).data ++ ext))
  { name := name, basePath := ⟨pyJoin dir newName⟩, counter := st.counter + 1 }

/-- The candidate path produced by the `k`-th loop iteration (`k ≥ 1`):
by then the name has been stripped `k` times and the counter is `k`. -/
def candidateAt (dir ext name₀ : List Char) (k : Nat) : String :=
  ⟨pyJoin dir (stripCounter^[k] name₀ ++ ('_' :: ((Nat.repr k).data ++ ext)))⟩

/-! ### Totality of the allocator loop

`Nat.repr` is injective (decimal printing of distinct numbers differs),
`stripCounter` stabilizes after at most `name.length` iterations, and then
the candidates are pairwise distinct strings, so a finite filesystem cannot
contain them all. -/

/-- The numeric value of a decimal digit character. -/
def digitVal (c : Char) : Nat := c.toNat - 48

theorem digitVal_digitChar : ∀ m < 10, digitVal (Nat.digitChar m) = m := by decide

theorem toDigitsCore_foldl_val :
    ∀ (f n a : Nat) (l : List Char), n < f →
      ∃ k, 0 < k ∧
        (Nat.toDigitsCore 10 f n l).foldl (fun a c => 10 * a + digitVal c) a
          = l.foldl (fun a c => 10 * a + digitVal c) (a * 10 ^ k + n) := by
  intro f
  induction f with
  | zero => intro n a l h; omega
  | succ fb ih =>
    intro n a l h
    by_cases hdiv : n / 10 = 0
    · refine ⟨1, Nat.one_pos, ?_⟩
      have hn : n < 10 := by omega
      simp only [Nat.toDigitsCore, hdiv, if_true, List.foldl_cons]
      rw [digitVal_digitChar (n % 10) (Nat.mod_lt n (by norm_num))]
      have hmod : n % 10 = n := Nat.mod_eq_of_lt hn
      rw [hmod]
      congr 1
      ring
    · have hrec : Nat.toDigitsCore 10 (fb + 1) n l
          = Nat.toDigitsCore 10 fb (n / 10) (Nat.digitChar (n % 10) :: l) := by
        simp only [Nat.toDigitsCore, hdiv, if_false]
      have hlt : n / 10 < fb := by
        have h1 : 0 < n := by
          rcases Nat.eq_zero_or_pos n with h0 | h0
          · exfalso; apply hdiv; simp [h0]
          · exact h0
        have h2 : n / 10 < n := Nat.div_lt_self h1 (by norm_num)
        omega
      obtain ⟨k, hk, hval⟩ := ih (n / 10) a (Nat.digitChar (n % 10) :: l) hlt
      refine ⟨k + 1, by omega, ?_⟩
      rw [hrec, hval]
      simp only [List.foldl_cons]
      rw [digitVal_digitChar (n % 10) (Nat.mod_lt n (by omega))]
      congr 1
      have h10 : 10 * (n / 10) + n % 10 = n := Nat.div_add_mod n 10
      calc 10 * (a * 10 ^ k + n / 10) + n % 10
          = a * (10 ^ k * 10) + (10 * (n / 10) + n % 10) := by ring
        _ = a * 10 ^ (k + 1) + n := by rw [← pow_succ, h10]

theorem toDigits_val (n : Nat) :
    (Nat.toDigits 10 n).foldl (fun a c => 10 * a + digitVal c) 0 = n := by
  obtain ⟨k, -, hval⟩ :=
    toDigitsCore_foldl_val (n + 1) n 0 [] (Nat.lt_succ_self n)
  simpa [Nat.toDigits] using hval

theorem nat_repr_injective : Function.Injective Nat.repr := by
  intro m n h
  have hdata : Nat.toDigits 10 m = Nat.toDigits 10 n := congrArg String.data h
  have := toDigits_val m
  rw [hdata, toDigits_val n] at this
  exact this.symm

theorem stripCounter_length (s : List Char) :
    stripCounter s = s ∨ (stripCounter s).length < s.length := by
  unfold stripCounter
  split
  · next preRev heq =>
    split
    · exact Or.inl rfl
    · right
      have hsplit := List.takeWhile_append_dropWhile (p := Char.isDigit) (l := s.reverse)
      rw [heq] at hsplit
      have hlen := congrArg List.length hsplit
      simp only [List.length_append, List.length_cons, List.length_reverse] at hlen
      simp only [List.length_reverse]
      omega
  · exact Or.inl rfl

theorem stripCounter_fix_exists :
    ∀ (b : Nat) (s : List Char), s.length ≤ b →
      ∃ k, k ≤ b ∧ stripCounter (stripCounter^[k] s) = stripCounter^[k] s := by
  intro b
  induction b with
  | zero =>
    intro s hs
    have hnil : s = [] := List.eq_nil_of_length_eq_zero (Nat.le_zero.mp hs)
    subst hnil
    exact ⟨0, le_refl 0, rfl⟩
  | succ b ih =>
    intro s hs
    rcases stripCounter_length s with hfix | hlt
    · exact ⟨0, Nat.zero_le _, by simpa using hfix⟩
    · obtain ⟨k, hk, hfix⟩ := ih (stripCounter s) (by omega)
      refine ⟨k + 1, by omega, ?_⟩
      rw [Function.iterate_succ_apply]
      exact hfix

theorem iterate_fix_ge {α : Type} (f : α → α) (x : α) (k : Nat)
    (hfix : f (f^[k] x) = f^[k] x) : ∀ n, k ≤ n → f^[n] x = f^[k] x := by
  intro n hkn
  obtain ⟨m, rfl⟩ := Nat.exists_eq_add_of_le hkn
  rw [Nat.add_comm, Function.iterate_add_apply]
  exact Function.IsFixedPt.iterate hfix m

theorem stripCounter_subset (s : List Char) : ∀ c ∈ stripCounter s, c ∈ s := by
  intro c hc
  unfold stripCounter at hc
  split at hc
  · next preRev heq =>
    split at hc
    · exact hc
    · rw [List.mem_reverse] at hc
      have h1 : c ∈ '_' :: preRev := List.mem_cons_of_mem _ hc
      rw [← heq] at h1
      have h2 : c ∈ s.reverse := (List.dropWhile_sublist _).subset h1
      simpa using h2
  · exact hc

theorem stripCounter_iterate_subset (s : List Char) :
    ∀ (k : Nat), ∀ c ∈ stripCounter^[k] s, c ∈ s := by
  intro k
  induction k with
  | zero => intro c hc; simpa using hc
  | succ k ih =>
    intro c hc
    rw [Function.iterate_succ_apply'] at hc
    exact ih c (stripCounter_subset _ c hc)

theorem pyBasename_no_slash (p : List Char) : '/' ∉ pyBasename p := by
  intro h
  unfold pyBasename at h
  rw [List.mem_reverse] at h
  have := List.mem_takeWhile_imp h
  simp at this

theorem pySplitExt_fst_subset (p : List Char) : ∀ c ∈ (pySplitExt p).1, c ∈ p := by
  intro c hc
  unfold pySplitExt at hc
  split at hc
  · exact hc
  · next d stemRev heq =>
    split at hc
    · rw [List.mem_append] at hc
      rcases hc with hc | hc
      · exact List.mem_of_mem_take hc
      · rw [List.mem_reverse] at hc
        have h1 : c ∈ d :: stemRev := List.mem_cons_of_mem _ hc
        rw [← heq] at h1
        have h2 : c ∈ (pyBasename p).reverse := (List.dropWhile_sublist _).subset h1
        rw [List.mem_reverse] at h2
        unfold pyBasename at h2
        rw [List.mem_reverse] at h2
        have h3 : c ∈ p.reverse := (List.takeWhile_sublist _).subset h2
        simpa using h3
    · exact hc

/-- The fixed directory prefix `os.path.join` puts before a second component
that does not begin with `'/'`. -/
def joinPre (a : List Char) : List Char :=
  if a.isEmpty || a.getLast? = some '/' then a else a ++ ['/']

theorem pyJoin_eq_joinPre (a b : List Char) (hb : b.head? ≠ some '/') :
    pyJoin a b = joinPre a ++ b := by
  unfold pyJoin joinPre
  rw [if_neg hb]
  split
  · rfl
  · simp

theorem head_append_underscore_ne_slash (name rest : List Char) (h : '/' ∉ name) :
    (name ++ ('_' :: rest)).head? ≠ some '/' := by
  cases name with
  | nil => simp
  | cons c cs =>
    simp only [List.cons_append, List.head?_cons, ne_eq, Option.some.injEq]
    intro hc
    subst hc
    exact h (List.mem_cons_self _ _)

theorem allocStep_iterate (dir ext name₀ : List Char) (bp : String) :
    ∀ k, (allocStep dir ext)^[k + 1] ⟨name₀, bp, 1⟩ =
      ⟨stripCounter^[k + 1] name₀, candidateAt dir ext name₀ (k + 1), k + 2⟩ := by
  intro k
  induction k with
  | zero =>
    simp [Function.iterate_one, allocStep, candidateAt]
  | succ k ih =>
    rw [Function.iterate_succ_apply' (n := k + 1), ih]
    simp only [allocStep, candidateAt]
    rw [Function.iterate_succ_apply' (n := k + 1)]

theorem exists_image_not_mem {g : Nat → String} (hg : Function.Injective g)
    (E : List String) : ∃ j, g j ∉ E := by
  by_contra hall
  push_neg at hall
  have hsub : (Finset.range (E.length + 1)).image g ⊆ E.toFinset := by
    intro x hx
    rw [Finset.mem_image] at hx
    obtain ⟨j, -, rfl⟩ := hx
    rw [List.mem_toFinset]
    exact hall j
  have hcard := Finset.card_le_card hsub
  rw [Finset.card_image_of_injective _ hg, Finset.card_range] at hcard
  have := List.toFinset_card_le (l := E)
  omega

theorem candidateAt_injective_of_stable (dir ext name₀ : List Char) (L : Nat)
    (hslash : '/' ∉ name₀)
    (hstab : ∀ n, L ≤ n → stripCounter^[n] name₀ = stripCounter^[L] name₀) :
    Function.Injective (fun j : Nat => candidateAt dir ext name₀ (L + 1 + j)) := by
  have hs : '/' ∉ stripCounter^[L] name₀ := fun hc =>
    hslash (stripCounter_iterate_subset name₀ L '/' hc)
  intro i j hij
  simp only [candidateAt] at hij
  have hdata := congrArg String.data hij
  simp only at hdata
  rw [hstab (L + 1 + i) (by omega), hstab (L + 1 + j) (by omega)] at hdata
  rw [pyJoin_eq_joinPre _ _ (head_append_underscore_ne_slash _ _ hs),
    pyJoin_eq_joinPre _ _ (head_append_underscore_ne_slash _ _ hs)] at hdata
  have h1 := List.append_cancel_left hdata
  have h2 := List.append_cancel_left h1
  have h3 : (Nat.repr (L + 1 + i)).data = (Nat.repr (L + 1 + j)).data := by
    have := List.cons.inj h2
    exact List.append_cancel_right this.2
  have h4 : Nat.repr (L + 1 + i) = Nat.repr (L + 1 + j) := congrArg String.mk h3
  have := nat_repr_injective h4
  omega

theorem alloc_exists (E : List String) (dir ext name₀ : List Char) (bp : String)
    (hslash : '/' ∉ name₀) :
    ∃ i, ((allocStep dir ext)^[i] ⟨name₀, bp, 1⟩).basePath ∉ E := by
  obtain ⟨L, -, hfix⟩ := stripCounter_fix_exists name₀.length name₀ (le_refl _)
  have hstab := iterate_fix_ge stripCounter name₀ L hfix
  obtain ⟨j, hj⟩ :=
    exists_image_not_mem (candidateAt_injective_of_stable dir ext name₀ L hslash hstab) E
  refine ⟨L + 1 + j, ?_⟩
  have harith : L + 1 + j = (L + j) + 1 := by omega
  rw [harith, allocStep_iterate]
  simp only []
  rw [← harith]
  exact hj

/-- `get_unique_filename` (src/app/utils.py).  `E` is the set of paths that
exist on disk; the loop is the `Nat.find`-indexed iterate of `allocStep`,
stopped at the first state whose `base_path` does not exist. -/
def get_unique_filename (E : List String) (basePath : String) : String :=
  if _h : basePath ∈ E then
    have hslash : '/' ∉ (pySplitExt (pyBasename basePath.data)).1 := fun hc =>
      pyBasename_no_slash basePath.data
        (pySplitExt_fst_subset (pyBasename basePath.data) '/' hc)
    ((allocStep (pyDirname basePath.data) (pySplitExt (pyBasename basePath.data)).2)^[
        Nat.find (alloc_exists E (pyDirname basePath.data)
          (pySplitExt (pyBasename basePath.data)).2
          (pySplitExt (pyBasename basePath.data)).1 basePath hslash)]
      (⟨(pySplitExt (pyBasename basePath.data)).1, basePath, 1⟩ : AllocState)).basePath
  else basePath

theorem get_unique_filename_of_not_mem (E : List String) (p : String) (h : p ∉ E) :
    get_unique_filename E p = p := by
  unfold get_unique_filename
  rw [dif_neg h]

theorem get_unique_filename_not_mem (E : List String) (p : String) :
    get_unique_filename E p ∉ E := by
  unfold get_unique_filename
  split
  · exact Nat.find_spec (alloc_exists E (pyDirname p.data)
      (pySplitExt (pyBasename p.data)).2 (pySplitExt (pyBasename p.data)).1 p
      (fun hc => pyBasename_no_slash p.data
        (pySplitExt_fst_subset (pyBasename p.data) '/' hc)))
  · assumption

/-- Closed form of the allocator loop: when the desired path exists, the
result is the first loop candidate (counter `k`, name stripped `k` times)
that does not exist, and every earlier candidate exists. -/
theorem get_unique_filename_spec (E : List String) (p : String) (h : p ∈ E) :
    ∃ k, 1 ≤ k ∧
      get_unique_filename E p
        = candidateAt (pyDirname p.data) (pySplitExt (pyBasename p.data)).2
            (pySplitExt (pyBasename p.data)).1 k ∧
      candidateAt (pyDirname p.data) (pySplitExt (pyBasename p.data)).2
          (pySplitExt (pyBasename p.data)).1 k ∉ E ∧
      ∀ j, 1 ≤ j → j < k →
        candidateAt (pyDirname p.data) (pySplitExt (pyBasename p.data)).2
          (pySplitExt (pyBasename p.data)).1 j ∈ E := by
  have hex := alloc_exists E (pyDirname p.data) (pySplitExt (pyBasename p.data)).2
    (pySplitExt (pyBasename p.data)).1 p
    (fun hc => pyBasename_no_slash p.data
      (pySplitExt_fst_subset (pyBasename p.data) '/' hc))
  have hres : get_unique_filename E p
      = ((allocStep (pyDirname p.data) (pySplitExt (pyBasename p.data)).2)^[Nat.find hex]
          (⟨(pySplitExt (pyBasename p.data)).1, p, 1⟩ : AllocState)).basePath := by
    unfold get_unique_filename
    rw [dif_pos h]
  have hi0 : Nat.find hex ≠ 0 := by
    intro h0
    have hspec := Nat.find_spec hex
    rw [h0] at hspec
    exact hspec h
  obtain ⟨k, hk⟩ : ∃ k, Nat.find hex = k + 1 := ⟨Nat.find hex - 1, by omega⟩
  refine ⟨k + 1, by omega, ?_, ?_, ?_⟩
  · rw [hres, hk, allocStep_iterate]
  · have hspec := Nat.find_spec hex
    rw [hk, allocStep_iterate] at hspec
    exact hspec
  · intro j hj1 hjk
    have hmin := Nat.find_min hex (m := j) (by omega)
    obtain ⟨j', rfl⟩ : ∃ j', j = j' + 1 := ⟨j - 1, by omega⟩
    rw [allocStep_iterate] at hmin
    simpa using hmin

/-- `N` sequential allocator calls with the same desired path, the caller
writing each returned path before the next call (as `Transcriber.transcribe`
does), so each returned path exists from then on. -/
def allocSeq (E : List String) (p : String) : Nat → List String
  | 0 => []
  | n + 1 => get_unique_filename E p :: allocSeq (get_unique_filename E p :: E) p n

theorem allocSeq_not_mem (p : String) :
    ∀ (n : Nat) (E : List String), ∀ x ∈ allocSeq E p n, x ∉ E := by
  intro n
  induction n with
  | zero => intro E x hx; simp [allocSeq] at hx
  | succ n ih =>
    intro E x hx
    rcases List.mem_cons.mp hx with rfl | hx
    · exact get_unique_filename_not_mem E p
    · intro hxE
      exact ih (get_unique_filename E p :: E) x hx (List.mem_cons_of_mem _ hxE)

theorem allocSeq_nodup (p : String) :
    ∀ (n : Nat) (E : List String), (allocSeq E p n).Nodup := by
  intro n
  induction n with
  | zero => intro E; simp [allocSeq]
  | succ n ih =>
    intro E
    refine List.nodup_cons.mpr ⟨?_, ih _⟩
    intro hmem
    exact allocSeq_not_mem p n (get_unique_filename E p :: E) _ hmem
      (List.mem_cons_self _ _)

/-! ## Artifact Validator — `validate_file_output` (src/scripts/run_all.py)

```python
def validate_file_output(file_path, min_size_bytes=100):
    if not os.path.exists(file_path):
        return False
    return os.path.getsize(file_path) >= min_size_bytes
```

The filesystem is `fs : String → Option Nat`: `fs p = some size` when a file
of that size exists at `p`, `none` when the path does not exist. -/
def validate_file_output (fs : String → Option Nat) (filePath : String)
    (minSizeBytes : Nat := 100) : Bool :=
  match fs filePath with
  | none => false
  | some size => minSizeBytes ≤ size

/-! ## Transcription stage runners (src/app/transcriber.py)

`WhisperTranscriber.transcribe`: the inference call `self.model.transcribe`
is abstracted as `model : Bool → String` giving the transcript text of the
first attempt (`model false`, default decoding parameters) and of the retry
(`model true`, `beam_size=5, best_of=5`).  The runner raises
(`Except.error`) exactly where the Python raises `ValueError`. -/
structure WhisperOutcome where
  result : Except String String
  retries : Nat

def whisperTranscribe (model : Bool → String) : WhisperOutcome :=
  if model false = "" then
    ⟨.error "Empty transcription result", 0⟩
  else if pyWordCount (model false) < 10 then
    if pyWordCount (model true) < 10 then
      ⟨.error ("Transcription seems too short (only "
        ++ Nat.repr (pyWordCount (model false)) ++ " words)"), 1⟩
    else ⟨.ok (model true), 1⟩
  else ⟨.ok (model false), 0⟩

/-- `VoskTranscriber.transcribe`: joins the non-empty `"text"` fields of the
accepted-waveform results and of the final result with spaces and returns
them — there is no word-count validation and no retry in this runner. -/
def voskTranscribe (segmentTexts : List String) (finalText : String) : String :=
  joinSpace ((segmentTexts.filter (fun t => t ≠ ""))
    ++ (if finalText = "" then [] else [finalText]))

/-! ## File writes of the runners

A written filesystem is an association list from path to contents; a write
prepends, so `fsRead` sees the newest write (Python `open(..., "w")`
truncates and rewrites). -/
def fsPaths (fs : List (String × String)) : List String := fs.map Prod.fst

def fsRead (fs : List (String × String)) (p : String) : Option String :=
  (fs.find? (fun e => e.1 = p)).map Prod.snd

def fsWrite (fs : List (String × String)) (p c : String) : List (String × String) :=
  (p, c) :: fs

/-- `Transcriber.transcribe` output naming (src/app/transcriber.py):
`f"{splitext(basename(audio_path))[0]}_{model_name}.txt"` joined to the
transcripts directory, passed through `get_unique_filename`. -/
def transcriberOutputBase (audioPath modelName : String) : String :=
  ⟨pyJoin "data/outputs/transcripts".data
    ((pySplitExt (pyBasename audioPath.data)).1 ++ ('_' :: (modelName.data ++ ".txt".data)))⟩

def transcriber_transcribe (fs : List (String × String))
    (audioPath modelName transcript : String) : List (String × String) × String :=
  let outputPath := get_unique_filename (fsPaths fs) (transcriberOutputBase audioPath modelName)
  (fsWrite fs outputPath transcript, outputPath)

/-- `Summarizer.summarize` output naming (src/app/summarizer.py):
`f"{splitext(basename(transcript_path))[0]}_{model_name}.md"` joined to the
summaries directory — written directly, without `get_unique_filename`. -/
def summarizerOutputPath (transcriptPath modelName : String) : String :=
  ⟨pyJoin "data/outputs/summaries".data
    ((pySplitExt (pyBasename transcriptPath.data)).1 ++ ('_' :: (modelName.data ++ ".md".data)))⟩

def summarizer_summarize (fs : List (String × String))
    (transcriptPath modelName summary : String) : List (String × String) × String :=
  let outputPath := summarizerOutputPath transcriptPath modelName
  (fsWrite fs outputPath summary, outputPath)

/-! ## Fan-out Orchestrator — `process_video` (src/scripts/run_all.py)

External collaborators are abstracted as an environment: each call either
returns a value (`.ok`) or raises (`.error message`); `fileSize` is the
filesystem consulted by `validate_file_output` when a produced artifact is
validated.  The trace records the registries, how far the run got, the
error log and the abort reason (the exception re-raised at the outer
handler), `none` meaning the run completed. -/
structure PipelineEnv where
  fileSize : String → Option Nat
  loadResult : Except String String
  extractResult : String → Except String String
  transcribeResult : String → String → Except String String
  summarizeResult : String → String → Except String String
  mindmapResult : String → Except String String
  notesResult : String → Except String (String × String)
  transcriptionModels : List String
  summarizationModels : List String

structure RunTrace where
  transcripts : List (String × String)
  summaries : List (String × String)
  enteredSummarizing : Bool
  enteredDeriving : Bool
  errorLog : List String
  aborted : Option String

/-- The `for model_name in config["models"]["transcription"]` loop: an
exception from `transcriber.transcribe` propagates (third component);
a transcript failing validation (< 500 bytes) is logged and skipped;
a validated transcript is registered under its model name. -/
def transcriptionLoop (env : PipelineEnv) (audioPath : String) :
    List String → List (String × String) × List String × Option String
  | [] => ([], [], none)
  | modelName :: rest =>
    match env.transcribeResult audioPath modelName with
    | .error e => ([], [], some e)
    | .ok transcriptPath =>
      if validate_file_output env.fileSize transcriptPath 500 then
        let r := transcriptionLoop env audioPath rest
        ((modelName, transcriptPath) :: r.1, r.2.1, r.2.2)
      else
        let r := transcriptionLoop env audioPath rest
        (r.1, ("Transcript from " ++ modelName ++ " seems too short") :: r.2.1, r.2.2)

/-- The inner `for summary_model in config["models"]["summarization"]` loop
for one transcript. -/
def summarizationInner (env : PipelineEnv) (transcriptModel transcriptPath : String) :
    List String → List (String × String) × List String × Option String
  | [] => ([], [], none)
  | summaryModel :: rest =>
    match env.summarizeResult transcriptPath summaryModel with
    | .error e => ([], [], some e)
    | .ok summaryPath =>
      if validate_file_output env.fileSize summaryPath 200 then
        let r := summarizationInner env transcriptModel transcriptPath rest
        ((transcriptModel ++ "_" ++ summaryModel, summaryPath) :: r.1, r.2.1, r.2.2)
      else
        let r := summarizationInner env transcriptModel transcriptPath rest
        (r.1, ("Summary using " ++ summaryModel ++ " seems too short") :: r.2.1, r.2.2)

/-- The outer loop over the validated transcripts. -/
def summarizationLoop (env : PipelineEnv) :
    List (String × String) → List (String × String) × List String × Option String
  | [] => ([], [], none)
  | (transcriptModel, transcriptPath) :: rest =>
    let r := summarizationInner env transcriptModel transcriptPath env.summarizationModels
    match r.2.2 with
    | some e => (r.1, r.2.1, some e)
    | none =>
      let r2 := summarizationLoop env rest
      (r.1 ++ r2.1, r.2.1 ++ r2.2.1, r2.2.2)

/-- The `for model_combo, summary_path in summaries.items()` loop: each
combination's mind map and notes/FAQ generation runs under a `try` whose
handler logs and continues, so this loop only produces log entries. -/
def deriveLoop (env : PipelineEnv) : List (String × String) → List String
  | [] => []
  | (combo, summaryPath) :: rest =>
    (match env.mindmapResult summaryPath with
      | .error e => ["Error processing " ++ combo ++ ": " ++ e]
      | .ok mindmapPath =>
        (if validate_file_output env.fileSize mindmapPath then []
         else ["Mind map generation failed for " ++ combo]) ++
        (match env.notesResult summaryPath with
          | .error e => ["Error processing " ++ combo ++ ": " ++ e]
          | .ok np =>
            if validate_file_output env.fileSize np.1 && validate_file_output env.fileSize np.2
            then []
            else ["Notes/FAQ generation failed for " ++ combo]))
      ++ deriveLoop env rest

/-- `process_video`: the stage sequence with its abort/skip decisions.  The
outer `try`/`except` logs `"Error during processing: ..."` and re-raises,
so any propagated exception becomes the abort reason. -/
def process_video (env : PipelineEnv) : RunTrace :=
  match env.loadResult with
  | .error e => ⟨[], [], false, false, ["Error during processing: " ++ e], some e⟩
  | .ok videoPath =>
    if validate_file_output env.fileSize videoPath then
      match env.extractResult videoPath with
      | .error e => ⟨[], [], false, false, ["Error during processing: " ++ e], some e⟩
      | .ok audioPath =>
        if validate_file_output env.fileSize audioPath then
          let tr := transcriptionLoop env audioPath env.transcriptionModels
          match tr.2.2 with
          | some e =>
            ⟨tr.1, [], false, false, tr.2.1 ++ ["Error during processing: " ++ e], some e⟩
          | none =>
            if tr.1.isEmpty then
              ⟨[], [], false, false,
                tr.2.1 ++ ["Error during processing: All transcription attempts failed"],
                some "All transcription attempts failed"⟩
            else
              let sm := summarizationLoop env tr.1
              match sm.2.2 with
              | some e =>
                ⟨tr.1, sm.1, true, false,
                  tr.2.1 ++ sm.2.1 ++ ["Error during processing: " ++ e], some e⟩
              | none =>
                if sm.1.isEmpty then
                  ⟨tr.1, [], true, false,
                    tr.2.1 ++ sm.2.1
                      ++ ["Error during processing: All summarization attempts failed"],
                    some "All summarization attempts failed"⟩
                else
                  ⟨tr.1, sm.1, true, true, tr.2.1 ++ sm.2.1 ++ deriveLoop env sm.1, none⟩
        else
          ⟨[], [], false, false, ["Error during processing: Audio extraction failed"],
            some "Audio extraction failed"⟩
    else
      ⟨[], [], false, false, ["Error during processing: Video loading failed"],
        some "Video loading failed"⟩

/-! # Properties of the chunker -/

/-- Loop invariant of `chunkGo`: every emitted chunk is within budget or a
single oversized sentence, and the emitted chunks cover exactly the
consumed sentences in order. -/
theorem chunkGo_spec (tok : String → Nat) (maxC : Nat) :
    ∀ (sentences : List String) (chunks : List (List String))
      (current : List String) (len : Nat),
      (∀ c ∈ chunks, (c.map tok).sum ≤ maxC ∨ ∃ u, c = [u] ∧ maxC < tok u) →
      len = (current.map tok).sum →
      ((current.map tok).sum ≤ maxC ∨ ∃ u, current = [u] ∧ maxC < tok u) →
      (∀ c ∈ chunkGo tok maxC sentences chunks current len,
          (c.map tok).sum ≤ maxC ∨ ∃ u, c = [u] ∧ maxC < tok u) ∧
        (chunkGo tok maxC sentences chunks current len).flatten
          = chunks.flatten ++ current ++ sentences := by
  intro sentences
  induction sentences with
  | nil =>
    intro chunks current len hchunks hlen hcur
    by_cases hemp : current.isEmpty
    · have hnil : current = [] := List.isEmpty_iff.mp hemp
      subst hnil
      constructor
      · intro c hc
        simp only [chunkGo, List.isEmpty_nil, if_true] at hc
        exact hchunks c hc
      · simp [chunkGo]
    · constructor
      · intro c hc
        simp only [chunkGo, hemp, Bool.false_eq_true, if_false] at hc
        rcases List.mem_append.mp hc with h | h
        · exact hchunks c h
        · rw [List.mem_singleton] at h
          subst h
          exact hcur
      · simp [chunkGo, hemp]
  | cons s rest ih =>
    intro chunks current len hchunks hlen hcur
    by_cases hover : len + tok s > maxC
    · have hrec := ih (chunks ++ [current]) [s] (tok s)
        (by
          intro c hc
          rcases List.mem_append.mp hc with h | h
          · exact hchunks c h
          · rw [List.mem_singleton] at h
            subst h
            exact hcur)
        (by simp)
        (by
          by_cases hs : tok s ≤ maxC
          · left; simpa using hs
          · right; exact ⟨s, rfl, by omega⟩)
      constructor
      · intro c hc
        apply hrec.1 c
        simpa only [chunkGo, hover, if_true] using hc
      · have := hrec.2
        simp only [chunkGo, hover, if_true, this, List.flatten_append]
        simp
    · have hrec := ih chunks (current ++ [s]) (len + tok s)
        hchunks
        (by simp [hlen])
        (by
          left
          have : (current.map tok).sum + tok s ≤ maxC := by omega
          simpa using this)
      constructor
      · intro c hc
        apply hrec.1 c
        simpa only [chunkGo, hover, if_false] using hc
      · have := hrec.2
        simp only [chunkGo, hover, if_false, this]
        simp

/-- The chunk accumulator only grows at the end: already-closed chunks are a
prefix of the result. -/
theorem chunkGo_chunks_prefix (tok : String → Nat) (maxC : Nat) :
    ∀ (sentences : List String) (chunks : List (List String))
      (current : List String) (len : Nat),
      chunkGo tok maxC sentences chunks current len
        = chunks ++ chunkGo tok maxC sentences [] current len := by
  intro sentences
  induction sentences with
  | nil =>
    intro chunks current len
    by_cases hemp : current.isEmpty
    · simp [chunkGo, hemp]
    · simp [chunkGo, hemp]
  | cons s rest ih =>
    intro chunks current len
    by_cases hover : len + tok s > maxC
    · simp only [chunkGo, hover, if_true, List.nil_append]
      rw [ih (chunks ++ [current]), ih [current]]
      simp
    · simp only [chunkGo, hover, if_false, List.nil_append]
      rw [ih chunks]

/-- Once the running chunk is nonempty, every chunk the loop will still emit
is nonempty. -/
theorem chunkGo_all_nonempty (tok : String → Nat) (maxC : Nat) :
    ∀ (sentences : List String) (chunks : List (List String))
      (current : List String) (len : Nat),
      (∀ c ∈ chunks, c ≠ []) → current ≠ [] →
      ∀ c ∈ chunkGo tok maxC sentences chunks current len, c ≠ [] := by
  intro sentences
  induction sentences with
  | nil =>
    intro chunks current len hchunks hcur c hc
    have hemp : current.isEmpty = false := by
      cases current with
      | nil => exact absurd rfl hcur
      | cons a l => rfl
    simp only [chunkGo, hemp, Bool.false_eq_true, if_false] at hc
    rcases List.mem_append.mp hc with h | h
    · exact hchunks c h
    · rw [List.mem_singleton] at h
      subst h
      exact hcur
  | cons s rest ih =>
    intro chunks current len hchunks hcur c hc
    by_cases hover : len + tok s > maxC
    · rw [chunkGo] at hc
      rw [if_pos hover] at hc
      refine ih (chunks ++ [current]) [s] (tok s) ?_ (by simp) c hc
      intro c' hc'
      rcases List.mem_append.mp hc' with h | h
      · exact hchunks c' h
      · rw [List.mem_singleton] at h
        subst h
        exact hcur
    · rw [chunkGo] at hc
      rw [if_neg hover] at hc
      exact ih chunks (current ++ [s]) (len + tok s) hchunks (by simp) c hc

/-- Joining a nonempty list of nonempty strings with spaces is nonempty. -/
theorem joinSpace_ne_empty :
    ∀ (c : List String), c ≠ [] → (∀ u ∈ c, u ≠ "") → joinSpace c ≠ "" := by
  intro c
  match c with
  | [] => intro h; exact absurd rfl h
  | [u] =>
    intro _ hu
    simpa [joinSpace] using hu u (by simp)
  | u :: v :: r =>
    intro _ hu hcontra
    have hu0 : u ≠ "" := hu u (by simp)
    have h1 : 1 ≤ u.length := by
      cases hul : u.length with
      | zero => exact absurd (String.ext (List.eq_nil_of_length_eq_zero hul)) hu0
      | succ n => omega
    have hlen := congrArg String.length hcontra
    rw [show joinSpace (u :: v :: r) = u ++ " " ++ joinSpace (v :: r) from rfl] at hlen
    rw [String.length_append, String.length_append] at hlen
    have hsp : (" " : String).length = 1 := rfl
    have hz : ("" : String).length = 0 := rfl
    rw [hsp, hz] at hlen
    omega

/-- Every sentence unit is a non-empty string. -/
theorem sentenceUnits_ne_empty (text : String) : ∀ u ∈ sentenceUnits text, u ≠ "" := by
  intro u hu
  unfold sentenceUnits at hu
  simpa using (List.mem_filter.mp hu).2

/-! # Claim theorems: the chunker (C3, C4, C5) -/

/-- C3 (counterexample): on the spec's scenario input with word count as the
token counter and budget `token-count("Sentence one.") + token-count("Sentence
two.")`, `_chunk_text` does not return `["Sentence one. Sentence two.",
"Sentence three."]` — splitting on `'.'` discards the terminal periods. -/
theorem chunker_scenario_periods_not_preserved :
    chunk_text pyWordCount "Sentence one. Sentence two. Sentence three."
        (pyWordCount "Sentence one." + pyWordCount "Sentence two.")
      ≠ ["Sentence one. Sentence two.", "Sentence three."] := by decide

/-- C3 (amended): on the scenario input, the chunker groups the first two
sentences into one chunk and the third into a second chunk, but the chunks
carry no terminal punctuation: the sentence units are period-stripped and
re-joined with single spaces. -/
theorem chunker_scenario_output :
    chunk_text pyWordCount "Sentence one. Sentence two. Sentence three."
        (pyWordCount "Sentence one." + pyWordCount "Sentence two.")
      = ["Sentence one Sentence two", "Sentence three"] := by decide

/-- C4: for every text, budget and token counter, each chunk's sentences
have token counts summing to at most the budget, except that a single
sentence whose own token count exceeds the budget forms a chunk by itself;
and the chunks' sentences are exactly the original sentence units in order
(nothing dropped, split or regrouped).  The returned strings are these
chunks space-joined. -/
theorem chunker_budget_invariant (tok : String → Nat) (text : String) (maxChunkSize : Nat) :
    (∀ c ∈ chunkUnits tok text maxChunkSize,
        (c.map tok).sum ≤ maxChunkSize ∨ ∃ u, c = [u] ∧ maxChunkSize < tok u) ∧
      (chunkUnits tok text maxChunkSize).flatten = sentenceUnits text ∧
      chunk_text tok text maxChunkSize = (chunkUnits tok text maxChunkSize).map joinSpace := by
  have h := chunkGo_spec tok maxChunkSize (sentenceUnits text) [] [] 0
    (by simp) (by simp) (by simp)
  exact ⟨h.1, by simpa using h.2, rfl⟩

/-- Witness for `chunker_budget_invariant` at the spec's scenario input. -/
theorem chunker_budget_invariant_witness :
    ["Sentence one", "Sentence two"]
        ∈ chunkUnits pyWordCount "Sentence one. Sentence two. Sentence three." 4 ∧
      (((["Sentence one", "Sentence two"].map pyWordCount).sum ≤ 4) ∨
        ∃ u, ["Sentence one", "Sentence two"] = [u] ∧ 4 < pyWordCount u) :=
  ⟨by decide,
    (chunker_budget_invariant pyWordCount
      "Sentence one. Sentence two. Sentence three." 4).1
      ["Sentence one", "Sentence two"] (by decide)⟩

/-- C5 (counterexample): the chunker does produce an empty chunk — when the
first sentence unit alone exceeds the budget, the accumulated empty
`current_chunk` is flushed as a leading `""`. -/
theorem chunker_emits_empty_chunk :
    "" ∈ chunk_text pyWordCount "a b" 1 ∧
      chunk_text pyWordCount "a b" 1 = ["", "a b"] := by decide

/-- C5 (amended): every chunk after the first is non-empty, and the first
chunk is empty exactly when the input's first sentence unit has token count
exceeding the budget (so with an in-budget first unit, no chunk is empty). -/
theorem chunker_empty_chunk_only_leading (tok : String → Nat) (text : String) (maxC : Nat) :
    (∀ c ∈ (chunk_text tok text maxC).drop 1, c ≠ "") ∧
      ((chunk_text tok text maxC).head? = some "" ↔
        ∃ u rest, sentenceUnits text = u :: rest ∧ maxC < tok u) := by
  rcases hunits : sentenceUnits text with _ | ⟨u, rest⟩
  · have hct : chunk_text tok text maxC = [] := by
      unfold chunk_text chunkUnits
      rw [hunits]
      simp [chunkGo]
    rw [hct]
    constructor
    · intro c hc
      simp at hc
    · simp [hunits]
  · have hcu : chunkUnits tok text maxC = chunkGo tok maxC (u :: rest) [] [] 0 := by
      unfold chunkUnits
      rw [hunits]
    by_cases hover : 0 + tok u > maxC
    · have hstep : chunkGo tok maxC (u :: rest) [] [] 0
          = [[]] ++ chunkGo tok maxC rest [] [u] (tok u) := by
        simp only [chunkGo, hover, if_true, List.nil_append]
        exact chunkGo_chunks_prefix tok maxC rest [[]] [u] (tok u)
      have hspec := chunkGo_spec tok maxC rest [] [u] (tok u) (by simp) (by simp)
        (Or.inr ⟨u, rfl, by omega⟩)
      have hne := chunkGo_all_nonempty tok maxC rest [] [u] (tok u) (by simp) (by simp)
      have helem : ∀ c ∈ chunkGo tok maxC rest [] [u] (tok u), ∀ x ∈ c, x ≠ "" := by
        intro c hc x hx
        have hxf : x ∈ (chunkGo tok maxC rest [] [u] (tok u)).flatten :=
          List.mem_flatten.mpr ⟨c, hc, hx⟩
        rw [hspec.2] at hxf
        apply sentenceUnits_ne_empty text
        rw [hunits]
        simpa using hxf
      have hct : chunk_text tok text maxC
          = "" :: (chunkGo tok maxC rest [] [u] (tok u)).map joinSpace := by
        unfold chunk_text
        rw [hcu, hstep]
        rfl
      rw [hct]
      constructor
      · intro c hc
        simp only [List.drop_succ_cons, List.drop_zero] at hc
        rw [List.mem_map] at hc
        obtain ⟨c', hc', rfl⟩ := hc
        exact joinSpace_ne_empty c' (hne c' hc') (helem c' hc')
      · simp only [List.head?_cons]
        constructor
        · intro _
          exact ⟨u, rest, rfl, by omega⟩
        · intro _
          trivial
    · have hstep : chunkGo tok maxC (u :: rest) [] [] 0
          = chunkGo tok maxC rest [] [u] (0 + tok u) := by
        simp only [chunkGo, hover, if_false, List.nil_append]
      have hspec := chunkGo_spec tok maxC rest [] [u] (0 + tok u) (by simp) (by simp)
        (Or.inl (by simp; omega))
      have hne := chunkGo_all_nonempty tok maxC rest [] [u] (0 + tok u) (by simp) (by simp)
      have helem : ∀ c ∈ chunkGo tok maxC rest [] [u] (0 + tok u), ∀ x ∈ c, x ≠ "" := by
        intro c hc x hx
        have hxf : x ∈ (chunkGo tok maxC rest [] [u] (0 + tok u)).flatten :=
          List.mem_flatten.mpr ⟨c, hc, hx⟩
        rw [hspec.2] at hxf
        apply sentenceUnits_ne_empty text
        rw [hunits]
        simpa using hxf
      have hall : ∀ c ∈ chunk_text tok text maxC, c ≠ "" := by
        intro c hc
        unfold chunk_text at hc
        rw [hcu, hstep] at hc
        rw [List.mem_map] at hc
        obtain ⟨c', hc', rfl⟩ := hc
        exact joinSpace_ne_empty c' (hne c' hc') (helem c' hc')
      constructor
      · intro c hc
        exact hall c (List.mem_of_mem_drop hc)
      · constructor
        · intro hhead
          cases hl : chunk_text tok text maxC with
          | nil => rw [hl] at hhead; simp at hhead
          | cons a t =>
            rw [hl] at hhead
            simp only [List.head?_cons, Option.some.injEq] at hhead
            subst hhead
            exact absurd rfl (hall "" (by rw [hl]; exact List.mem_cons_self _ _))
        · rintro ⟨u', rest', huv, hover'⟩
          injection huv with h1 h2
          subst h1
          exact absurd hover' (by omega)

/-- Witness for `chunker_empty_chunk_only_leading`. -/
theorem chunker_empty_chunk_only_leading_witness : ("b" : String) ≠ "" :=
  (chunker_empty_chunk_only_leading pyWordCount "a. b" 1).1 "b" (by decide)

/-! # Claim theorems: allocator (C8, C9) and validator (C10) -/

/-- Pins the concrete value of the allocator on a concrete filesystem: the
result is the counter-`k` candidate when every earlier candidate exists and
candidate `k` does not. -/
theorem get_unique_filename_eval (E : List String) (p : String) (h : p ∈ E) (k : Nat)
    (hk : 1 ≤ k)
    (hnot : candidateAt (pyDirname p.data) (pySplitExt (pyBasename p.data)).2
      (pySplitExt (pyBasename p.data)).1 k ∉ E)
    (hall : ∀ j, 1 ≤ j → j < k →
      candidateAt (pyDirname p.data) (pySplitExt (pyBasename p.data)).2
        (pySplitExt (pyBasename p.data)).1 j ∈ E) :
    get_unique_filename E p
      = candidateAt (pyDirname p.data) (pySplitExt (pyBasename p.data)).2
          (pySplitExt (pyBasename p.data)).1 k := by
  obtain ⟨k', hk', heq, hnot', hall'⟩ := get_unique_filename_spec E p h
  rcases lt_trichotomy k' k with hlt | rfl | hgt
  · exact absurd (hall k' hk' hlt) hnot'
  · exact heq
  · exact absurd (hall' k hk hgt) hnot

/-- C8 (counterexample): for desired path `"d/a_1_2.txt"` when
`"d/a_1_2.txt"` and `"d/a_1_1.txt"` exist, the code returns `"d/a_2.txt"`:
the `_<integer>` suffix is re-stripped on every loop iteration, so the stem
shrinks from `"a_1"` to `"a"`.  Under the claim (strip once, then search
`stem_n.ext` for the smallest free `n`) the result would have been
`"d/a_1_3.txt"`. -/
theorem allocator_multi_suffix_restrips :
    get_unique_filename ["d/a_1_2.txt", "d/a_1_1.txt"] "d/a_1_2.txt" = "d/a_2.txt" ∧
      ("d/a_2.txt" : String) ≠ "d/a_1_3.txt" ∧
      ("d/a_1_3.txt" : String) ∉ ["d/a_1_2.txt", "d/a_1_1.txt"] ∧
      ("d/a_1_1.txt" : String) ∈ ["d/a_1_2.txt", "d/a_1_1.txt"] := by
  refine ⟨?_, by decide, by decide, by decide⟩
  have he := get_unique_filename_eval ["d/a_1_2.txt", "d/a_1_1.txt"] "d/a_1_2.txt"
    (by decide) 2 (by omega) (by decide)
    (by
      intro j h1 hj
      have hj1 : j = 1 := by omega
      subst hj1
      decide)
  rw [he]
  decide

/-- C8 (amended): if the desired path does not exist it is returned
unchanged (no suffix added); otherwise the loop tries counters
`n = 1, 2, 3, …`, stripping a trailing `_<integer>` suffix from the current
stem once more on each iteration (a multiply-suffixed stem keeps
shrinking), and returns the first candidate `<stem'>_n<ext>` that does not
exist.  For stems with at most one numeric suffix this coincides with the
claimed `stem_n.ext` for the smallest free `n ≥ 1`. -/
theorem allocator_characterization (E : List String) (p : String) :
    (p ∉ E → get_unique_filename E p = p) ∧
      (p ∈ E → ∃ k, 1 ≤ k ∧
        get_unique_filename E p
          = candidateAt (pyDirname p.data) (pySplitExt (pyBasename p.data)).2
              (pySplitExt (pyBasename p.data)).1 k ∧
        candidateAt (pyDirname p.data) (pySplitExt (pyBasename p.data)).2
            (pySplitExt (pyBasename p.data)).1 k ∉ E ∧
        ∀ j, 1 ≤ j → j < k →
          candidateAt (pyDirname p.data) (pySplitExt (pyBasename p.data)).2
            (pySplitExt (pyBasename p.data)).1 j ∈ E) :=
  ⟨get_unique_filename_of_not_mem E p, get_unique_filename_spec E p⟩

/-- Witness for `allocator_characterization`: a non-existing desired path is
returned unchanged. -/
theorem allocator_characterization_witness :
    get_unique_filename ["other.txt"] "d/b.txt" = "d/b.txt" :=
  (allocator_characterization ["other.txt"] "d/b.txt").1 (by decide)

/-- C9: N sequential allocator calls with the same desired path within one
run (each returned path then written, hence existing for the next call)
return pairwise distinct paths, none of which existed before its call. -/
theorem allocator_no_collision (E : List String) (p : String) (n : Nat) :
    (allocSeq E p n).Nodup ∧ ∀ x ∈ allocSeq E p n, x ∉ E :=
  ⟨allocSeq_nodup p n E, allocSeq_not_mem p n E⟩

/-- Witness for `allocator_no_collision`: the first of two sequential calls
for `"d/b.txt"` returns `"d/b_1.txt"`, which did not previously exist. -/
theorem allocator_no_collision_witness : ("d/b_1.txt" : String) ∉ ["d/b.txt"] := by
  have h1 : get_unique_filename ["d/b.txt"] "d/b.txt" = "d/b_1.txt" := by
    have he := get_unique_filename_eval ["d/b.txt"] "d/b.txt" (by decide) 1 (le_refl 1)
      (by decide)
      (by intro j hj1 hj; omega)
    rw [he]
    decide
  refine (allocator_no_collision ["d/b.txt"] "d/b.txt" 1).2 "d/b_1.txt" ?_
  rw [show allocSeq ["d/b.txt"] "d/b.txt" 1
    = [get_unique_filename ["d/b.txt"] "d/b.txt"] from rfl, h1]
  exact List.mem_singleton_self _

/-- C10: the artifact validator returns `false` (without raising) when the
path does not exist, decides `size ≥ min_bytes` when it does, so a file of
exactly `min_bytes` passes and one of `min_bytes - 1` bytes fails. -/
theorem validator_boundary (fs : String → Option Nat) (p : String) (minBytes : Nat) :
    (fs p = none → validate_file_output fs p minBytes = false) ∧
      (∀ size, fs p = some size →
        (validate_file_output fs p minBytes = true ↔ minBytes ≤ size)) ∧
      (fs p = some minBytes → validate_file_output fs p minBytes = true) ∧
      (∀ size, fs p = some size → size + 1 = minBytes →
        validate_file_output fs p minBytes = false) := by
  refine ⟨?_, ?_, ?_, ?_⟩
  · intro h
    simp [validate_file_output, h]
  · intro size h
    simp [validate_file_output, h]
  · intro h
    simp [validate_file_output, h]
  · intro size h hsz
    simp only [validate_file_output, h, decide_eq_false_iff_not]
    omega

/-- Witness for `validator_boundary`: a 100-byte file passes the default
100-byte minimum. -/
theorem validator_boundary_witness :
    validate_file_output (fun _ => some 100) "f.txt" 100 = true :=
  (validator_boundary (fun _ => some 100) "f.txt" 100).2.2.1 rfl

/-! # Claim theorems: transcription runners (C6) -/

/-- C6 (counterexample): the retry-on-short-output policy does not hold for
every transcription runner.  The Vosk runner returns a 2-word transcript
as-is (no word-count check, no retry, no failure), and even the Whisper
runner fails an empty first result immediately with zero retries. -/
theorem transcriber_runners_unequal_retry :
    voskTranscribe ["hi"] "" = "hi" ∧ pyWordCount "hi" < 10 ∧
      whisperTranscribe (fun _ => "") = ⟨.error "Empty transcription result", 0⟩ ∧
      pyWordCount "" < 10 :=
  ⟨rfl, by decide, rfl, by decide⟩

/-- C6 (amended): only the Whisper runner implements the bounded retry: a
nonempty first result of fewer than 10 words triggers exactly one retry
with the alternate decoding configuration, and the attempt fails only if
the retried result still has fewer than 10 words; a first result of 10 or
more words triggers no retry; an empty first result fails immediately
without retry; at most one retry ever happens.  (The Vosk runner, per the
counterexample, has no word-count validation or retry at all.) -/
theorem whisper_retry_policy (model : Bool → String) :
    (whisperTranscribe model).retries ≤ 1 ∧
      (model false = "" →
        whisperTranscribe model = ⟨.error "Empty transcription result", 0⟩) ∧
      (model false ≠ "" → 10 ≤ pyWordCount (model false) →
        whisperTranscribe model = ⟨.ok (model false), 0⟩) ∧
      (model false ≠ "" → pyWordCount (model false) < 10 →
        (whisperTranscribe model).retries = 1 ∧
          (10 ≤ pyWordCount (model true) →
            (whisperTranscribe model).result = .ok (model true)) ∧
          (pyWordCount (model true) < 10 →
            (whisperTranscribe model).result
              = .error ("Transcription seems too short (only "
                  ++ Nat.repr (pyWordCount (model false)) ++ " words)"))) := by
  refine ⟨?_, ?_, ?_, ?_⟩
  · unfold whisperTranscribe
    split_ifs <;> simp
  · intro h0
    unfold whisperTranscribe
    rw [if_pos h0]
  · intro h0 h10
    unfold whisperTranscribe
    rw [if_neg h0, if_neg (by omega)]
  · intro h0 hlt
    unfold whisperTranscribe
    rw [if_neg h0, if_pos hlt]
    refine ⟨?_, ?_, ?_⟩
    · split_ifs <;> rfl
    · intro h10
      rw [if_neg (by omega)]
    · intro hlt2
      rw [if_pos hlt2]

/-- Witness for `whisper_retry_policy`: a 2-word first result and a 10-word
retry: exactly one retry, and the retried transcript is returned. -/
theorem whisper_retry_policy_witness :
    (whisperTranscribe
      (fun b => if b then "a b c d e f g h i j" else "too short")).retries = 1 :=
  ((whisper_retry_policy
    (fun b => if b then "a b c d e f g h i j" else "too short")).2.2.2
    (by decide) (by decide)).1

/-! # Claim theorems: output writes (C7) -/

theorem fsRead_fsWrite_self (fs : List (String × String)) (p c : String) :
    fsRead (fsWrite fs p c) p = some c := by
  unfold fsRead fsWrite
  rw [List.find?_cons_of_pos _ (by simp)]
  rfl

theorem fsRead_fsWrite_ne (fs : List (String × String)) (q p c : String) (h : q ≠ p) :
    fsRead (fsWrite fs p c) q = fsRead fs q := by
  unfold fsRead fsWrite
  rw [List.find?_cons_of_neg _ (by simp [Ne.symm h])]

/-- C7 (counterexample): the Summarize runner does not pass its output path
through the allocator: writing a summary for the same transcript/model pair
twice writes to the same path, overwriting the pre-existing file. -/
theorem summarizer_overwrites_existing_file :
    summarizerOutputPath "data/outputs/transcripts/video_whisper.txt" "bart"
        = "data/outputs/summaries/video_whisper_bart.md" ∧
      fsRead [("data/outputs/summaries/video_whisper_bart.md", "OLD")]
        "data/outputs/summaries/video_whisper_bart.md" = some "OLD" ∧
      fsRead (summarizer_summarize
          [("data/outputs/summaries/video_whisper_bart.md", "OLD")]
          "data/outputs/transcripts/video_whisper.txt" "bart" "NEW").1
        "data/outputs/summaries/video_whisper_bart.md" = some "NEW" ∧
      ("NEW" : String) ≠ "OLD" := by
  refine ⟨by decide, by decide, ?_, by decide⟩
  show fsRead (fsWrite [("data/outputs/summaries/video_whisper_bart.md", "OLD")]
    (summarizerOutputPath "data/outputs/transcripts/video_whisper.txt" "bart") "NEW")
    "data/outputs/summaries/video_whisper_bart.md" = some "NEW"
  rw [show summarizerOutputPath "data/outputs/transcripts/video_whisper.txt" "bart"
    = "data/outputs/summaries/video_whisper_bart.md" by decide]
  exact fsRead_fsWrite_self _ _ _

/-- C7 (amended): the Transcribe runner allocates a fresh path through the
Unique Path Allocator before writing, so it changes no pre-existing file;
the Summarize runner writes directly to its computed output path — it
overwrites whatever is there, leaving only other paths unchanged. -/
theorem runner_write_policy (fs : List (String × String))
    (audioPath modelT transcript transcriptPath modelS summary : String) :
    (∀ p ∈ fsPaths fs,
        fsRead (transcriber_transcribe fs audioPath modelT transcript).1 p = fsRead fs p) ∧
      (transcriber_transcribe fs audioPath modelT transcript).2 ∉ fsPaths fs ∧
      (summarizer_summarize fs transcriptPath modelS summary).2
        = summarizerOutputPath transcriptPath modelS ∧
      fsRead (summarizer_summarize fs transcriptPath modelS summary).1
        (summarizerOutputPath transcriptPath modelS) = some summary ∧
      ∀ p, p ≠ summarizerOutputPath transcriptPath modelS →
        fsRead (summarizer_summarize fs transcriptPath modelS summary).1 p = fsRead fs p := by
  have hfresh :
      get_unique_filename (fsPaths fs) (transcriberOutputBase audioPath modelT) ∉ fsPaths fs :=
    get_unique_filename_not_mem _ _
  refine ⟨?_, hfresh, rfl, ?_, ?_⟩
  · intro p hp
    show fsRead (fsWrite fs
      (get_unique_filename (fsPaths fs) (transcriberOutputBase audioPath modelT)) transcript) p
      = fsRead fs p
    exact fsRead_fsWrite_ne fs p _ transcript (fun heq => hfresh (heq ▸ hp))
  · show fsRead (fsWrite fs (summarizerOutputPath transcriptPath modelS) summary)
      (summarizerOutputPath transcriptPath modelS) = some summary
    exact fsRead_fsWrite_self _ _ _
  · intro p hp
    show fsRead (fsWrite fs (summarizerOutputPath transcriptPath modelS) summary) p = fsRead fs p
    exact fsRead_fsWrite_ne fs p _ summary hp

/-- Witness for `runner_write_policy`: a pre-existing file is unchanged by a
transcriber write. -/
theorem runner_write_policy_witness :
    fsRead (transcriber_transcribe [("x.txt", "old")] "a.wav" "whisper_base" "T").1 "x.txt"
      = fsRead [("x.txt", "old")] "x.txt" :=
  (runner_write_policy [("x.txt", "old")] "a.wav" "whisper_base" "T" "t.txt" "bart" "S").1
    "x.txt" (by decide)

/-! # Claim theorems: the orchestrator (C1, C2) -/

/-- When no transcribe call raises, the transcription loop registers exactly
the models whose transcripts pass validation (in configuration order) and
logs each validation failure. -/
theorem transcriptionLoop_all_ok (env : PipelineEnv) (audioPath : String) :
    ∀ models : List String,
      (∀ m ∈ models, ∃ t, env.transcribeResult audioPath m = .ok t) →
      transcriptionLoop env audioPath models
        = (models.filterMap (fun m =>
              match env.transcribeResult audioPath m with
              | .ok t => if validate_file_output env.fileSize t 500 then some (m, t) else none
              | .error _ => none),
            models.filterMap (fun m =>
              match env.transcribeResult audioPath m with
              | .ok t =>
                if validate_file_output env.fileSize t 500 then none
                else some ("Transcript from " ++ m ++ " seems too short")
              | .error _ => none),
            none) := by
  intro models
  induction models with
  | nil => intro _; rfl
  | cons m rest ih =>
    intro hok
    obtain ⟨t, ht⟩ := hok m (List.mem_cons_self m rest)
    have hrest := ih (fun m' hm' => hok m' (List.mem_cons_of_mem _ hm'))
    by_cases hval : validate_file_output env.fileSize t 500 = true
    · simp only [transcriptionLoop, ht, hval, if_true, hrest, List.filterMap_cons]
    · simp only [transcriptionLoop, ht, hval, if_false, hrest, List.filterMap_cons,
        Bool.not_eq_true] at *
      simp [transcriptionLoop, ht, hval, hrest, List.filterMap_cons]

/-- When every model fails — its call raises or its transcript fails
validation — the loop registers nothing, and it either finishes normally
(all failures were validation failures) or propagates the exception of a
failing model. -/
theorem transcriptionLoop_all_fail (env : PipelineEnv) (audioPath : String) :
    ∀ models : List String,
      (∀ m ∈ models,
        (∃ e, env.transcribeResult audioPath m = .error e) ∨
        (∃ t, env.transcribeResult audioPath m = .ok t ∧
          validate_file_output env.fileSize t 500 = false)) →
      (transcriptionLoop env audioPath models).1 = [] ∧
        ((transcriptionLoop env audioPath models).2.2 = none ∨
          ∃ m ∈ models, ∃ e, env.transcribeResult audioPath m = .error e ∧
            (transcriptionLoop env audioPath models).2.2 = some e) := by
  intro models
  induction models with
  | nil => intro _; exact ⟨rfl, Or.inl rfl⟩
  | cons m rest ih =>
    intro hfail
    have hrest := ih (fun m' hm' => hfail m' (List.mem_cons_of_mem _ hm'))
    rcases hfail m (List.mem_cons_self m rest) with ⟨e, he⟩ | ⟨t, ht, hval⟩
    · constructor
      · simp [transcriptionLoop, he]
      · right
        exact ⟨m, List.mem_cons_self m rest, e, he, by simp [transcriptionLoop, he]⟩
    · have hv : ¬ validate_file_output env.fileSize t 500 = true := by simp [hval]
      constructor
      · simp only [transcriptionLoop, ht, hv, if_false]
        exact hrest.1
      · rcases hrest.2 with hnone | ⟨m', hm', e', he', hsome⟩
        · left
          simp only [transcriptionLoop, ht, hv, if_false]
          exact hnone
        · right
          refine ⟨m', List.mem_cons_of_mem _ hm', e', he', ?_⟩
          simp only [transcriptionLoop, ht, hv, if_false]
          exact hsome

/-- With loading and extraction succeeding and validated, no transcribe
exception and a non-empty transcript registry, the run proceeds to the
Summarizing stage; the registry is the loop's, and the loop's error log is
carried into the run's. -/
theorem process_video_reaches_summarizing (env : PipelineEnv) (videoPath audioPath : String)
    (hload : env.loadResult = .ok videoPath)
    (hvv : validate_file_output env.fileSize videoPath = true)
    (hext : env.extractResult videoPath = .ok audioPath)
    (hva : validate_file_output env.fileSize audioPath = true)
    (herr : (transcriptionLoop env audioPath env.transcriptionModels).2.2 = none)
    (hne : (transcriptionLoop env audioPath env.transcriptionModels).1.isEmpty = false) :
    (process_video env).enteredSummarizing = true ∧
      (process_video env).transcripts
        = (transcriptionLoop env audioPath env.transcriptionModels).1 ∧
      ∀ x ∈ (transcriptionLoop env audioPath env.transcriptionModels).2.1,
        x ∈ (process_video env).errorLog := by
  unfold process_video
  rw [hload]
  dsimp only
  rw [if_pos hvv, hext]
  dsimp only
  rw [if_pos hva, herr]
  dsimp only
  rw [hne]
  simp only [Bool.false_eq_true, if_false]
  rcases hS : (summarizationLoop env
      (transcriptionLoop env audioPath env.transcriptionModels).1).2.2 with _ | e
  · dsimp only
    rcases hE : (summarizationLoop env
        (transcriptionLoop env audioPath env.transcriptionModels).1).1.isEmpty with _ | _
    · simp only [Bool.false_eq_true, if_false]
      exact ⟨by trivial, by trivial,
        fun x hx => List.mem_append_left _ (List.mem_append_left _ hx)⟩
    · rw [if_pos rfl]
      exact ⟨rfl, rfl, fun x hx => List.mem_append_left _ (List.mem_append_left _ hx)⟩
  · dsimp only
    exact ⟨rfl, rfl, fun x hx => List.mem_append_left _ (List.mem_append_left _ hx)⟩

/-- A transcribe call that raises aborts the whole run with that exception:
the trace of `process_video` when the transcription loop propagates `e`. -/
theorem process_video_transcribe_error (env : PipelineEnv) (videoPath audioPath e : String)
    (hload : env.loadResult = .ok videoPath)
    (hvv : validate_file_output env.fileSize videoPath = true)
    (hext : env.extractResult videoPath = .ok audioPath)
    (hva : validate_file_output env.fileSize audioPath = true)
    (herr : (transcriptionLoop env audioPath env.transcriptionModels).2.2 = some e) :
    process_video env
      = ⟨(transcriptionLoop env audioPath env.transcriptionModels).1, [], false, false,
          (transcriptionLoop env audioPath env.transcriptionModels).2.1
            ++ ["Error during processing: " ++ e], some e⟩ := by
  unfold process_video
  rw [hload]
  dsimp only
  rw [if_pos hvv, hext]
  dsimp only
  rw [if_pos hva, herr]

/-- When no transcribe call raises but no transcript validates, the run
aborts with "All transcription attempts failed" and an empty registry. -/
theorem process_video_all_transcripts_invalid (env : PipelineEnv) (videoPath audioPath : String)
    (hload : env.loadResult = .ok videoPath)
    (hvv : validate_file_output env.fileSize videoPath = true)
    (hext : env.extractResult videoPath = .ok audioPath)
    (hva : validate_file_output env.fileSize audioPath = true)
    (herr : (transcriptionLoop env audioPath env.transcriptionModels).2.2 = none)
    (hemp : (transcriptionLoop env audioPath env.transcriptionModels).1.isEmpty = true) :
    process_video env
      = ⟨[], [], false, false,
          (transcriptionLoop env audioPath env.transcriptionModels).2.1
            ++ ["Error during processing: All transcription attempts failed"],
          some "All transcription attempts failed"⟩ := by
  unfold process_video
  rw [hload]
  dsimp only
  rw [if_pos hvv, hext]
  dsimp only
  rw [if_pos hva, herr]
  dsimp only
  rw [hemp, if_pos rfl]

/-- Environment for the C1 counterexample: model "m2" transcribes
successfully (900-byte transcript, validated), model "m1"'s transcribe call
raises "boom"; loading and extraction succeed. -/
def envTranscribeRaises : PipelineEnv where
  fileSize := fun p =>
    if p = "v.mp4" then some 5000 else if p = "a.wav" then some 4000
    else if p = "t2.txt" then some 900 else none
  loadResult := .ok "v.mp4"
  extractResult := fun _ => .ok "a.wav"
  transcribeResult := fun _ m => if m = "m2" then .ok "t2.txt" else .error "boom"
  summarizeResult := fun _ _ => .ok "s.md"
  mindmapResult := fun _ => .ok "mm.png"
  notesResult := fun _ => .ok ("n.md", "f.md")
  transcriptionModels := ["m2", "m1"]
  summarizationModels := ["bart"]

/-- C1 (counterexample): one transcription model ("m2") succeeds and is
registered, the other ("m1") fails by raising an exception — and the run
aborts with that exception instead of logging, skipping "m1" and
continuing to the Summarizing stage: only validation failures are skipped,
a raised exception is fatal. -/
theorem transcription_exception_aborts_run :
    (process_video envTranscribeRaises).transcripts = [("m2", "t2.txt")] ∧
      (process_video envTranscribeRaises).enteredSummarizing = false ∧
      (process_video envTranscribeRaises).aborted = some "boom" := by decide

/-- C1 (amended): in a run that reaches transcription where no transcribe
call raises and at least one model's transcript passes validation, a model
whose transcript fails validation is logged ("Transcript from <model>
seems too short"), excluded from the transcript registry, and the run
continues to the Summarizing stage.  (A transcribe call that raises an
exception instead aborts the run — see the counterexample.) -/
theorem transcription_validation_failures_are_skipped
    (env : PipelineEnv) (videoPath audioPath m t : String)
    (hload : env.loadResult = .ok videoPath)
    (hvv : validate_file_output env.fileSize videoPath = true)
    (hext : env.extractResult videoPath = .ok audioPath)
    (hva : validate_file_output env.fileSize audioPath = true)
    (hok : ∀ m' ∈ env.transcriptionModels, ∃ t', env.transcribeResult audioPath m' = .ok t')
    (hsucc : ∃ m' ∈ env.transcriptionModels, ∃ t',
      env.transcribeResult audioPath m' = .ok t' ∧
        validate_file_output env.fileSize t' 500 = true)
    (hm : m ∈ env.transcriptionModels)
    (hmt : env.transcribeResult audioPath m = .ok t)
    (hinv : validate_file_output env.fileSize t 500 = false) :
    (process_video env).enteredSummarizing = true ∧
      ("Transcript from " ++ m ++ " seems too short") ∈ (process_video env).errorLog ∧
      ∀ t', (m, t') ∉ (process_video env).transcripts := by
  have hloop := transcriptionLoop_all_ok env audioPath env.transcriptionModels hok
  have herr : (transcriptionLoop env audioPath env.transcriptionModels).2.2 = none := by
    rw [hloop]
  have hne : (transcriptionLoop env audioPath env.transcriptionModels).1.isEmpty = false := by
    obtain ⟨m', hm', t', ht', hv'⟩ := hsucc
    have hmem : (m', t') ∈ (transcriptionLoop env audioPath env.transcriptionModels).1 := by
      rw [hloop]
      exact List.mem_filterMap.mpr ⟨m', hm', by rw [ht']; simp [hv']⟩
    cases hb : (transcriptionLoop env audioPath env.transcriptionModels).1 with
    | nil => rw [hb] at hmem; cases hmem
    | cons a l => rfl
  have hmain := process_video_reaches_summarizing env videoPath audioPath
    hload hvv hext hva herr hne
  refine ⟨hmain.1, ?_, ?_⟩
  · apply hmain.2.2
    rw [hloop]
    exact List.mem_filterMap.mpr ⟨m, hm, by rw [hmt]; simp [hinv]⟩
  · intro t' hmem'
    rw [hmain.2.1, hloop] at hmem'
    obtain ⟨m'', hm'', heq⟩ := List.mem_filterMap.mp hmem'
    rcases hok m'' hm'' with ⟨t'', ht''⟩
    rw [ht''] at heq
    dsimp only at heq
    by_cases hv'' : validate_file_output env.fileSize t'' 500 = true
    · rw [if_pos hv''] at heq
      injection heq with hpair
      injection hpair with hA hB
      subst hA
      rw [hmt] at ht''
      injection ht'' with hC
      subst hC
      rw [hinv] at hv''
      cases hv''
    · rw [if_neg hv''] at heq
      cases heq

/-- Environment for the C1 witness: both models transcribe without raising;
"m1"'s transcript (90 bytes) fails validation, "m2"'s (900 bytes) passes. -/
def envValidSkip : PipelineEnv where
  fileSize := fun p =>
    if p = "v.mp4" then some 5000 else if p = "a.wav" then some 4000
    else if p = "t1.txt" then some 90 else if p = "t2.txt" then some 900 else none
  loadResult := .ok "v.mp4"
  extractResult := fun _ => .ok "a.wav"
  transcribeResult := fun _ m => if m = "m1" then .ok "t1.txt" else .ok "t2.txt"
  summarizeResult := fun _ _ => .ok "s.md"
  mindmapResult := fun _ => .ok "mm.png"
  notesResult := fun _ => .ok ("n.md", "f.md")
  transcriptionModels := ["m1", "m2"]
  summarizationModels := ["bart"]

/-- Witness for `transcription_validation_failures_are_skipped`. -/
theorem transcription_validation_failures_are_skipped_witness :
    (process_video envValidSkip).enteredSummarizing = true :=
  (transcription_validation_failures_are_skipped envValidSkip "v.mp4" "a.wav" "m1" "t1.txt"
    rfl (by decide) rfl (by decide)
    (by
      intro m' hm'
      rcases List.mem_cons.mp hm' with rfl | hm'
      · exact ⟨"t1.txt", rfl⟩
      · rcases List.mem_cons.mp hm' with rfl | hm'
        · exact ⟨"t2.txt", rfl⟩
        · cases hm')
    ⟨"m2", by decide, "t2.txt", rfl, by decide⟩
    (by decide) rfl (by decide)).1

/-- Environment for the C2 theorems: both models transcribe without
raising, but both transcripts (90 and 80 bytes) fail the 500-byte
validation. -/
def envAllShort : PipelineEnv where
  fileSize := fun p =>
    if p = "v.mp4" then some 5000 else if p = "a.wav" then some 4000
    else if p = "t1.txt" then some 90 else if p = "t2.txt" then some 80 else none
  loadResult := .ok "v.mp4"
  extractResult := fun _ => .ok "a.wav"
  transcribeResult := fun _ m => if m = "m1" then .ok "t1.txt" else .ok "t2.txt"
  summarizeResult := fun _ _ => .ok "s.md"
  mindmapResult := fun _ => .ok "mm.png"
  notesResult := fun _ => .ok ("n.md", "f.md")
  transcriptionModels := ["m1", "m2"]
  summarizationModels := ["bart"]

/-- C2 (counterexample): with two transcription models both failing
(validation), the run does abort with an empty registry before Summarizing,
but the reason string the code raises is "All transcription attempts
failed" — not the claimed "all transcription attempts failed". -/
theorem abort_reason_differs_from_claim :
    (process_video envAllShort).aborted ≠ some "all transcription attempts failed" ∧
      (process_video envAllShort).aborted = some "All transcription attempts failed" ∧
      (process_video envAllShort).transcripts = [] ∧
      (process_video envAllShort).enteredSummarizing = false := by decide

/-- C2 (amended): in a run that reaches transcription where every
configured model fails — its transcribe call raises or its transcript
fails validation — the run aborts with an empty transcript registry and
never enters Summarizing; the abort reason is "All transcription attempts
failed" (capital A) when no call raised, and otherwise the raising call's
own exception message. -/
theorem all_transcription_failures_abort
    (env : PipelineEnv) (videoPath audioPath : String)
    (hload : env.loadResult = .ok videoPath)
    (hvv : validate_file_output env.fileSize videoPath = true)
    (hext : env.extractResult videoPath = .ok audioPath)
    (hva : validate_file_output env.fileSize audioPath = true)
    (hfail : ∀ m ∈ env.transcriptionModels,
      (∃ e, env.transcribeResult audioPath m = .error e) ∨
      (∃ t, env.transcribeResult audioPath m = .ok t ∧
        validate_file_output env.fileSize t 500 = false)) :
    (process_video env).transcripts = [] ∧
      (process_video env).enteredSummarizing = false ∧
      ((process_video env).aborted = some "All transcription attempts failed" ∨
        ∃ m ∈ env.transcriptionModels, ∃ e,
          env.transcribeResult audioPath m = .error e ∧
            (process_video env).aborted = some e) := by
  have hloop := transcriptionLoop_all_fail env audioPath env.transcriptionModels hfail
  rcases hloop.2 with hnone | ⟨m, hm, e, he, hsome⟩
  · have hemp : (transcriptionLoop env audioPath env.transcriptionModels).1.isEmpty = true := by
      rw [hloop.1]
      rfl
    have heq := process_video_all_transcripts_invalid env videoPath audioPath
      hload hvv hext hva hnone hemp
    rw [heq]
    exact ⟨rfl, rfl, Or.inl rfl⟩
  · have heq := process_video_transcribe_error env videoPath audioPath e
      hload hvv hext hva hsome
    rw [heq]
    exact ⟨hloop.1, rfl, Or.inr ⟨m, hm, e, he, rfl⟩⟩

/-- Witness for `all_transcription_failures_abort`. -/
theorem all_transcription_failures_abort_witness :
    (process_video envAllShort).transcripts = [] :=
  (all_transcription_failures_abort envAllShort "v.mp4" "a.wav" rfl (by decide) rfl (by decide)
    (by
      intro m hm
      rcases List.mem_cons.mp hm with rfl | hm
      · exact Or.inr ⟨"t1.txt", rfl, by decide⟩
      · rcases List.mem_cons.mp hm with rfl | hm
        · exact Or.inr ⟨"t2.txt", rfl, by decide⟩
        · cases hm)).1

end VideoSummary
